import Mathlib

/-!
Verification development for the coroutine scheduler of the Corentin
repository (a cooperative, tick-driven coroutine library for a game
engine).  The repository ships its scheduler in the modules `coroutine`,
`executor`, `waker` and `world_window`, which are declared in
`src/lib.rs` but whose bodies are not part of the source tree we were
given; only the test suite in `src/lib.rs` exercises them.  The
definitions below therefore embed the scheduler as described by the
specification (suspension tokens, one resumption pass per `advance`,
registration-order scheduling, change-version baselines, bounded borrow
windows, race/join combinators), calibrated so that every observable
sequence asserted by the in-repo tests is reproduced exactly.
-/

/-- Modelled from the spec: one world entry of the entity-component
store (the `world_window` collaborator).  `value` is the stored payload
and `version` the monotonically increasing change-version that the host
bumps on every mutation. -/
structure Entry where
  value : Nat
  version : Nat
deriving DecidableEq, Repr

/-- Modelled from the spec: the state shared by all coroutines: the
keyed world (entry id = list index, absent ids are out of range) plus
the single observation counter used by the tests (their `Arc Mutex`
cell). -/
structure Shared where
  world : List Entry
  counter : Nat
deriving DecidableEq, Repr

/-- Per-coroutine change-version bookkeeping: for each entry id, how
many change events of that entry this coroutine has already observed.
Initialized to the current versions when the coroutine first runs. -/
abbrev Seen := Nat → Nat

/-- Look up a world entry by id. -/
def getEntry (w : List Entry) (id : Nat) : Option Entry :=
  w.get? id

/-- Modelled from the spec: one atomic action inside a looping coroutine
body (loops in the tests contain only these primitives). -/
inductive Act where
  | inc : Act
  | nextTick : Act
  | waitChange (id : Nat) : Act
  | thenGrab (id : Nat) (write : Bool) : Act
deriving DecidableEq, Repr

/-- Modelled from the spec: the deep embedding of a coroutine body
(`Fib` operations of the missing `coroutine` module).  Each constructor
is one suspension primitive followed by its continuation:
`nextTick` is `fib.next_tick().await`; `waitChange id` is
`fib.change(id).await`; `thenGrab id write` is
`fib.next_tick().then_grab::<&mut _>(id).await` followed by a write to
the grabbed entry iff `write` is true (the borrow window is open only
during the resumption segment); `onSub child` is `fib.on(child).await`;
`parOr`/`parAnd` are the race/join combinators with two children;
`external` awaits a suspension source not produced by the library;
`inc` bumps the shared counter without suspending; `loop pending body`
is a forever-loop currently at `pending`, restarting at `body`. -/
inductive Coro where
  | done : Coro
  | inc (k : Coro) : Coro
  | nextTick (k : Coro) : Coro
  | waitChange (id : Nat) (k : Coro) : Coro
  | thenGrab (id : Nat) (write : Bool) (k : Coro) : Coro
  | onSub (child : Coro) (k : Coro) : Coro
  | parOr (l r : Coro) (k : Coro) : Coro
  | parAnd (l r : Coro) (k : Coro) : Coro
  | external (k : Coro) : Coro
  | loop (pending : List Act) (body : List Act) : Coro
deriving DecidableEq, Repr

/-- Outcome of driving one coroutine for one pass: it completed, it
suspended on a new token (carried as the remaining program), or it hit
a usage fault (awaiting a foreign suspension source, or grabbing a
missing entry). -/
inductive SegOut where
  | finished : SegOut
  | suspended (c : Coro) : SegOut
  | fault : SegOut
deriving DecidableEq, Repr

/-- Modelled from the spec: is a `ChangedSince` token satisfied?  It
resolves iff the entry exists and its current change-version differs
from the number of events this coroutine has already observed. -/
def changeReady (s : Shared) (seen : Seen) (id : Nat) : Bool :=
  match getEntry s.world id with
  | some e => e.version != seen id
  | none => false

/-- Consume one change event of entry `id`: advance the baseline by one
so that several buffered events are each observed individually. -/
def updSeen (seen : Seen) (id : Nat) : Seen :=
  fun j => if j = id then seen id + 1 else seen j

/-- Modelled from the spec: open the borrow window of entry `id` on
resumption of a grab primitive.  Fails (usage fault, `none`) when the
entry does not exist; a mutable window that is actually written bumps
the value and the change-version, a window that is never written leaves
the entry untouched. -/
def grabStep (s : Shared) (id : Nat) (write : Bool) : Option Shared :=
  match getEntry s.world id with
  | none => none
  | some e =>
      some { s with world :=
        if write then s.world.set id ⟨e.value + 1, e.version + 1⟩ else s.world }

/-- Result of one run segment: updated shared state, updated change
baselines, and the segment outcome. -/
abbrev SegRes := Shared × Seen × SegOut

/-- Run the pending actions of a loop body until the loop blocks; when
the body is exhausted the loop restarts through `restart` (which costs
one unit of fuel in `runSegF`). -/
def runActs (restart : Shared → Seen → Coro → Option SegRes)
    (body : List Act) : Shared → Seen → List Act → Option SegRes
  | s, seen, [] => restart s seen (.loop body body)
  | s, seen, .inc :: rest =>
      runActs restart body { s with counter := s.counter + 1 } seen rest
  | s, seen, .nextTick :: rest =>
      some (s, seen, .suspended (.loop (.nextTick :: rest) body))
  | s, seen, .thenGrab id w :: rest =>
      some (s, seen, .suspended (.loop (.thenGrab id w :: rest) body))
  | s, seen, .waitChange id :: rest =>
      if changeReady s seen id then runActs restart body s (updSeen seen id) rest
      else some (s, seen, .suspended (.loop (.waitChange id :: rest) body))

/-- Modelled from the spec: run a coroutine synchronously until it
completes, creates a new suspension token (and thereby suspends), or
faults.  A `nextTick` or grab token created during the segment never
resolves within the same pass; a change token created during the
segment resolves immediately when buffered events are pending, so a
waiter observes every event exactly once.  Children spawned by `onSub`,
`parOr` and `parAnd` start running within the same pass, in declared
order. -/
def runSegStep (restart : Shared → Seen → Coro → Option SegRes) :
    Shared → Seen → Coro → Option SegRes
  | s, seen, .done => some (s, seen, .finished)
  | s, seen, .inc k => runSegStep restart { s with counter := s.counter + 1 } seen k
  | s, seen, .nextTick k => some (s, seen, .suspended (.nextTick k))
  | s, seen, .thenGrab id w k => some (s, seen, .suspended (.thenGrab id w k))
  | s, seen, .waitChange id k =>
      if changeReady s seen id then runSegStep restart s (updSeen seen id) k
      else some (s, seen, .suspended (.waitChange id k))
  | s, seen, .onSub child k =>
      match runSegStep restart s seen child with
      | none => none
      | some (s', seen', .finished) => runSegStep restart s' seen' k
      | some (s', seen', .suspended c') => some (s', seen', .suspended (.onSub c' k))
      | some (s', seen', .fault) => some (s', seen', .fault)
  | s, seen, .parOr l r k =>
      match runSegStep restart s seen l with
      | none => none
      | some (s', seen', .finished) => runSegStep restart s' seen' k
      | some (s', seen', .fault) => some (s', seen', .fault)
      | some (s', seen', .suspended l') =>
          match runSegStep restart s' seen' r with
          | none => none
          | some (s'', seen'', .finished) => runSegStep restart s'' seen'' k
          | some (s'', seen'', .fault) => some (s'', seen'', .fault)
          | some (s'', seen'', .suspended r') =>
              some (s'', seen'', .suspended (.parOr l' r' k))
  | s, seen, .parAnd l r k =>
      match runSegStep restart s seen l with
      | none => none
      | some (s', seen', .fault) => some (s', seen', .fault)
      | some (s', seen', lres) =>
          match runSegStep restart s' seen' r with
          | none => none
          | some (s'', seen'', .fault) => some (s'', seen'', .fault)
          | some (s'', seen'', rres) =>
              match lres, rres with
              | .finished, .finished => runSegStep restart s'' seen'' k
              | .finished, .suspended r' =>
                  some (s'', seen'', .suspended (.parAnd .done r' k))
              | .suspended l', .finished =>
                  some (s'', seen'', .suspended (.parAnd l' .done k))
              | .suspended l', .suspended r' =>
                  some (s'', seen'', .suspended (.parAnd l' r' k))
              | _, _ => none
  | s, seen, .external _ => some (s, seen, .fault)
  | s, seen, .loop pending body => runActs restart body s seen pending

/-- Fuelled segment runner: fuel is consumed only when a forever-loop
restarts its body, so straight-line coroutines need a single unit. -/
def runSegF : Nat → Shared → Seen → Coro → Option SegRes
  | 0, _, _, _ => none
  | fuel + 1, s, seen, c => runSegStep (runSegF fuel) s seen c

/-- Result of resuming a suspended coroutine for one pass: it also
reports the ids of entries for which an exclusive borrow window was
opened during the pass. -/
abbrev ResRes := Shared × Seen × List Nat × SegOut

/-- Attach an empty grab log to a segment result. -/
def withLog : Option SegRes → Option ResRes
  | none => none
  | some (s, seen, o) => some (s, seen, [], o)

/-- Attach a one-grab log to a segment result. -/
def withGrab (id : Nat) : Option SegRes → Option ResRes
  | none => none
  | some (s, seen, o) => some (s, seen, [id], o)

/-- Modelled from the spec: one pass over a suspended coroutine.  The
executor evaluates the stored suspension token against the current
world: `NextTick` and grab tokens always resolve on the first pass
after creation (the grab opening the borrow window, faulting when the
entry is missing); a change token resolves only when unobserved events
exist; composite tokens resume their children in declared order, with
`parOr` cancelling the loser without resuming it further and `parAnd`
skipping already-completed children. -/
def resume (fuel : Nat) : Shared → Seen → Coro → Option ResRes
  | s, seen, .done => some (s, seen, [], .finished)
  | s, seen, .inc k => withLog (runSegF fuel s seen (.inc k))
  | s, seen, .nextTick k => withLog (runSegF fuel s seen k)
  | s, seen, .waitChange id k =>
      if changeReady s seen id then withLog (runSegF fuel s (updSeen seen id) k)
      else some (s, seen, [], .suspended (.waitChange id k))
  | s, seen, .thenGrab id w k =>
      match grabStep s id w with
      | none => some (s, seen, [], .fault)
      | some s' => withGrab id (runSegF fuel s' seen k)
  | s, seen, .onSub child k =>
      match resume fuel s seen child with
      | none => none
      | some (s', seen', g, .finished) =>
          match runSegF fuel s' seen' k with
          | none => none
          | some (s'', seen'', o) => some (s'', seen'', g, o)
      | some (s', seen', g, .suspended c') => some (s', seen', g, .suspended (.onSub c' k))
      | some (s', seen', g, .fault) => some (s', seen', g, .fault)
  | s, seen, .parOr l r k =>
      match resume fuel s seen l with
      | none => none
      | some (s', seen', g, .finished) =>
          (match runSegF fuel s' seen' k with
           | none => none
           | some (s'', seen'', o) => some (s'', seen'', g, o))
      | some (s', seen', g, .fault) => some (s', seen', g, .fault)
      | some (s', seen', g, .suspended l') =>
          match resume fuel s' seen' r with
          | none => none
          | some (s'', seen'', g2, .finished) =>
              (match runSegF fuel s'' seen'' k with
               | none => none
               | some (s3, seen3, o) => some (s3, seen3, g ++ g2, o))
          | some (s'', seen'', g2, .fault) => some (s'', seen'', g ++ g2, .fault)
          | some (s'', seen'', g2, .suspended r') =>
              some (s'', seen'', g ++ g2, .suspended (.parOr l' r' k))
  | s, seen, .parAnd l r k =>
      match resume fuel s seen l with
      | none => none
      | some (s', seen', g, .fault) => some (s', seen', g, .fault)
      | some (s', seen', g, lres) =>
          match resume fuel s' seen' r with
          | none => none
          | some (s'', seen'', g2, .fault) => some (s'', seen'', g ++ g2, .fault)
          | some (s'', seen'', g2, rres) =>
              match lres, rres with
              | .finished, .finished =>
                  (match runSegF fuel s'' seen'' k with
                   | none => none
                   | some (s3, seen3, o) => some (s3, seen3, g ++ g2, o))
              | .finished, .suspended r' =>
                  some (s'', seen'', g ++ g2, .suspended (.parAnd .done r' k))
              | .suspended l', .finished =>
                  some (s'', seen'', g ++ g2, .suspended (.parAnd l' .done k))
              | .suspended l', .suspended r' =>
                  some (s'', seen'', g ++ g2, .suspended (.parAnd l' r' k))
              | _, _ => none
  | s, seen, .external _ => some (s, seen, [], .fault)
  | s, seen, .loop [] body => withLog (runSegF fuel s seen (.loop [] body))
  | s, seen, .loop (.inc :: rest) body =>
      withLog (runSegF fuel s seen (.loop (.inc :: rest) body))
  | s, seen, .loop (.nextTick :: rest) body =>
      withLog (runSegF fuel s seen (.loop rest body))
  | s, seen, .loop (.thenGrab id w :: rest) body =>
      match grabStep s id w with
      | none => some (s, seen, [], .fault)
      | some s' => withGrab id (runSegF fuel s' seen (.loop rest body))
  | s, seen, .loop (.waitChange id :: rest) body =>
      if changeReady s seen id then withLog (runSegF fuel s (updSeen seen id) (.loop rest body))
      else some (s, seen, [], .suspended (.loop (.waitChange id :: rest) body))

/-- The runtime record of one root coroutine: whether it has ever been
resumed, its remaining program, and its change baselines. -/
structure Root where
  fresh : Bool
  prog : Coro
  seen : Seen

/-- Modelled from the spec: the executor state: the registered root
coroutines in registration order plus the shared state. -/
structure Exec where
  roots : List Root
  shared : Shared

/-- The change-versions currently stored in the world, used to
initialize the baselines of a coroutine on its first resumption. -/
def versionsOf (s : Shared) : Seen :=
  fun id =>
    match getEntry s.world id with
    | some e => e.version
    | none => 0

/-- Drive one root coroutine for one pass: a fresh root is constructed
lazily (its baselines snapshot the current versions) and runs to its
first suspension; a suspended root is resumed through its token. -/
def driveRoot (fuel : Nat) (s : Shared) (r : Root) : Option ResRes :=
  if r.fresh then withLog (runSegF fuel s (versionsOf s) r.prog)
  else resume fuel s r.seen r.prog

/-- A pass aborts fatally on a usage fault; `noFuel` only signals that
the bookkeeping fuel of the model was insufficient. -/
inductive TickErr where
  | fault : TickErr
  | noFuel : TickErr
deriving DecidableEq, Repr

/-- Modelled from the spec: one resumption pass over a list of root
coroutines in registration order, threading the shared state, removing
completed roots, aborting the pass on a usage fault, and logging every
opened borrow window as a pair of root index and entry id. -/
def tickRoots (fuel : Nat) :
    Shared → List Root → Nat → Except TickErr (Shared × List Root × List (Nat × Nat))
  | s, [], _ => .ok (s, [], [])
  | s, r :: rs, idx =>
      match driveRoot fuel s r with
      | none => .error .noFuel
      | some (_, _, _, .fault) => .error .fault
      | some (s', _, g, .finished) =>
          match tickRoots fuel s' rs (idx + 1) with
          | .error er => .error er
          | .ok (s'', rs', log) => .ok (s'', rs', g.map (fun id => (idx, id)) ++ log)
      | some (s', seen', g, .suspended c') =>
          match tickRoots fuel s' rs (idx + 1) with
          | .error er => .error er
          | .ok (s'', rs', log) =>
              .ok (s'', (⟨false, c', seen'⟩ : Root) :: rs', g.map (fun id => (idx, id)) ++ log)

/-- Modelled from the spec: the `advance` operation of the executor,
also reporting the borrow-window log of the pass. -/
def tickL (fuel : Nat) (e : Exec) : Except TickErr (Exec × List (Nat × Nat)) :=
  match tickRoots fuel e.shared e.roots 0 with
  | .error er => .error er
  | .ok (s', rs', log) => .ok (⟨rs', s'⟩, log)

/-- One `advance` call of the executor. -/
def tick (fuel : Nat) (e : Exec) : Except TickErr Exec :=
  match tickL fuel e with
  | .error er => .error er
  | .ok (e', _) => .ok e'

/-- `n` consecutive `advance` calls. -/
def tickN (fuel : Nat) : Nat → Exec → Except TickErr Exec
  | 0, e => .ok e
  | n + 1, e =>
      match tick fuel e with
      | .error er => .error er
      | .ok e' => tickN fuel n e'

/-- Modelled from the spec: a host mutation of entry `id` between two
passes (the tests write through `world.entity_mut`): the value changes
and the host bumps the change-version.  Clearing the trackers is an
opaque host event the scheduler tolerates; with per-waiter baselines it
is a no-op of the model. -/
def hostBump (e : Exec) (id : Nat) : Exec :=
  { e with shared :=
      { e.shared with world :=
          match getEntry e.shared.world id with
          | none => e.shared.world
          | some en => e.shared.world.set id ⟨en.value + 1, en.version + 1⟩ } }

/-- Register a root coroutine (the `add` operation): appended in
registration order, scheduled from the next pass on. -/
def addCoro (e : Exec) (c : Coro) : Exec :=
  { e with roots := e.roots ++ [⟨true, c, fun _ => 0⟩] }

/-- Build an executor from a list of coroutine programs registered in
order, before the first pass. -/
def execOf (cs : List Coro) (s : Shared) : Exec :=
  ⟨cs.map (fun c => (⟨true, c, fun _ => 0⟩ : Root)), s⟩

/-- Counter value after `k` passes (`none` on fault or missing fuel). -/
def counterAfter (fuel k : Nat) (e : Exec) : Option Nat :=
  match tickN fuel k e with
  | .ok e' => some e'.shared.counter
  | .error _ => none

/-- Number of live root coroutines after `k` passes. -/
def rootsAfter (fuel k : Nat) (e : Exec) : Option Nat :=
  match tickN fuel k e with
  | .ok e' => some e'.roots.length
  | .error _ => none

/-- World contents after `k` passes. -/
def worldAfter (fuel k : Nat) (e : Exec) : Option (List Entry) :=
  match tickN fuel k e with
  | .ok e' => some e'.shared.world
  | .error _ => none

/-- Borrow-window log of pass `k + 1`, i.e. of the pass following the
first `k` passes. -/
def logOfPass (fuel k : Nat) (e : Exec) : Option (List (Nat × Nat)) :=
  match tickN fuel k e with
  | .ok e' =>
      match tickL fuel e' with
      | .ok (_, log) => some log
      | .error _ => none
  | .error _ => none

/-- A coroutine that awaits `next_tick` a given number of times and
completes. -/
def tickProg : Nat → Coro
  | 0 => .done
  | n + 1 => .nextTick (tickProg n)

/-- The coroutine of the `wait_on_tick` test: increment, tick,
increment, tick, increment. -/
def waitOnTickProg : Coro := .inc (.nextTick (.inc (.nextTick (.inc .done))))

/-- A writer coroutine: each iteration awaits the next tick, grabs the
entry mutably and increments it. -/
def writerProg (id : Nat) : Nat → Coro
  | 0 => .done
  | n + 1 => .thenGrab id true (writerProg id n)

/-- A coroutine that grabs the entry mutably each tick but never takes
its mutation branch. -/
def nonWriterProg (id : Nat) : Nat → Coro
  | 0 => .done
  | n + 1 => .thenGrab id false (nonWriterProg id n)

/-- A waiter looping forever on one change wait followed by an
increment. -/
def waiterLoop (id : Nat) : Coro :=
  .loop [.waitChange id, .inc] [.waitChange id, .inc]

/-- A waiter looping forever on two change waits, each followed by an
increment. -/
def waiter2Loop (i j : Nat) : Coro :=
  .loop [.waitChange i, .inc, .waitChange j, .inc]
    [.waitChange i, .inc, .waitChange j, .inc]

/-- The root coroutine of the `waiting_on_par_or` test: a race between
a forever loop incrementing after each tick and a child completing
after four ticks. -/
def parOrProg : Coro :=
  .parOr (.loop [.nextTick, .inc] [.nextTick, .inc]) (tickProg 4) .done

/-- The root coroutine of the `waiting_on_par_and` test: a join of a
child incrementing once after one tick and a child incrementing after
each of two ticks. -/
def parAndProg : Coro :=
  .parAnd (.nextTick (.inc .done)) (.nextTick (.inc (.nextTick (.inc .done)))) .done

/-- The parent of the `wait_on_sub_coroutine` test, with a child
waiting a given number of ticks. -/
def subParentProg (n : Nat) : Coro := .inc (.onSub (tickProg n) (.inc .done))

/-- The coroutine of the `wait_on_change` test: one tick, then a change
wait, then an increment. -/
def changeProg (id : Nat) : Coro := .nextTick (.waitChange id (.inc .done))

/-- A world with a single entry of value 0 and version 0. -/
def sh1 : Shared := ⟨[⟨0, 0⟩], 0⟩

/-- A world with two entries of value 0 and version 0. -/
def sh2 : Shared := ⟨[⟨0, 0⟩, ⟨0, 0⟩], 0⟩

/-- An empty world. -/
def shE : Shared := ⟨[], 0⟩

/-- `k` passes, each preceded by a host mutation of entry `id`
(the shape of the `waiting_on_internal_and_external_change_is_correct`
test loop). -/
def tickHostN (fuel id : Nat) : Nat → Exec → Except TickErr Exec
  | 0, e => .ok e
  | k + 1, e =>
      match tick fuel (hostBump e id) with
      | .error er => .error er
      | .ok e' => tickHostN fuel id k e'

/-- Counter after `k` host-bump-then-advance rounds. -/
def counterHostAfter (fuel id k : Nat) (e : Exec) : Option Nat :=
  match tickHostN fuel id k e with
  | .ok e' => some e'.shared.counter
  | .error _ => none

/-- The executor of the `multiple_write_dont_override_too_soon` test:
two writers of entry 0 and one looping waiter. -/
def multiWriteExec : Exec := execOf [writerProg 0 5, writerProg 0 5, waiterLoop 0] sh1

/-- The executor of the
`waiting_on_internal_change_do_not_consume_twice_events` test: writers
of two distinct entries and one waiter alternating between them. -/
def twoEntryExec : Exec := execOf [writerProg 0 5, writerProg 1 5, waiter2Loop 0 1] sh2

/-- The executor of the `not_writing_to_mut_component_has_no_effect`
test: one writer, one never-writing grabber, one looping waiter. -/
def nonWriteExec : Exec := execOf [writerProg 0 5, nonWriterProg 0 5, waiterLoop 0] sh1

lemma tick_nil (fuel : Nat) (s : Shared) : tick fuel ⟨[], s⟩ = .ok ⟨[], s⟩ := rfl

lemma tickN_nil (fuel k : Nat) (s : Shared) : tickN fuel k ⟨[], s⟩ = .ok ⟨[], s⟩ := by
  induction k with
  | zero => rfl
  | succ k ih => simp [tickN, tick_nil, ih]

lemma tickN_add (fuel a b : Nat) (e : Exec) :
    tickN fuel (a + b) e =
      match tickN fuel a e with
      | .ok e' => tickN fuel b e'
      | .error er => .error er := by
  induction a generalizing e with
  | zero => simp [tickN, Nat.zero_add]
  | succ a ih =>
      have hs : a + 1 + b = (a + b) + 1 := by omega
      rw [hs]
      simp only [tickN]
      cases h : tick fuel e with
      | error er => rfl
      | ok e' => exact ih e'

lemma tickN_comp (fuel a b : Nat) (e e' : Exec) (h : tickN fuel a e = .ok e') :
    tickN fuel (a + b) e = tickN fuel b e' := by
  rw [tickN_add, h]

lemma tick_single (fuel : Nat) (s : Shared) (r : Root) :
    tick fuel ⟨[r], s⟩ =
      match driveRoot fuel s r with
      | none => .error .noFuel
      | some (_, _, _, .fault) => .error .fault
      | some (s', _, _, .finished) => .ok ⟨[], s'⟩
      | some (s', sn', _, .suspended c') => .ok ⟨[⟨false, c', sn'⟩], s'⟩ := by
  rcases h : driveRoot fuel s r with _ | ⟨s', sn', g, o⟩
  · simp [tick, tickL, tickRoots, h]
  · rcases o with _ | c' | _ <;> simp [tick, tickL, tickRoots, h]

/-- Claim C10.  Once the executor has removed every completed root
coroutine, each further advance call leaves all observable state
unchanged: an empty executor is a fixed point of `tick`, and in the
`wait_on_tick` scenario every advance beyond the third leaves the
counter at 3 forever with no coroutine body running again. -/
theorem empty_executor_ticks_identity :
    (∀ fuel k s, tickN fuel k ⟨[], s⟩ = .ok ⟨[], s⟩)
    ∧ tickN 40 3 (execOf [waitOnTickProg] shE) = .ok ⟨[], ⟨[], 3⟩⟩
    ∧ ∀ k, tickN 40 (3 + k) (execOf [waitOnTickProg] shE) = .ok ⟨[], ⟨[], 3⟩⟩ := by
  refine ⟨fun fuel k s => tickN_nil fuel k s, rfl, fun k => ?_⟩
  rw [tickN_add]
  have h : tickN 40 3 (execOf [waitOnTickProg] shE) = .ok ⟨[], ⟨[], 3⟩⟩ := rfl
  rw [h]
  exact tickN_nil 40 k ⟨[], 3⟩

/-- The executor of the `waiting_on_par_or` test. -/
def parOrExec : Exec := execOf [parOrProg] shE

/-- The executor of the `waiting_on_par_and` test. -/
def parAndExec : Exec := execOf [parAndProg] shE

/-- Claim C5.  In the race between a forever-looping child incrementing
after each tick and a child completing after four ticks, the counter
after advance t equals t - 1 for the first five advances: in
particular, on the fifth advance (where the second child completes and
the race resolves) the first child has already incremented, because
children are polled in declared order; the race resolves on that pass
(the root set becomes empty), not earlier. -/
theorem par_or_trace :
    counterAfter 60 1 parOrExec = some 0 ∧
    counterAfter 60 2 parOrExec = some 1 ∧
    counterAfter 60 3 parOrExec = some 2 ∧
    counterAfter 60 4 parOrExec = some 3 ∧
    counterAfter 60 5 parOrExec = some 4 ∧
    rootsAfter 60 4 parOrExec = some 1 ∧
    rootsAfter 60 5 parOrExec = some 0 :=
  ⟨rfl, rfl, rfl, rfl, rfl, rfl, rfl⟩

/-- Claim C6.  In the join of a child incrementing once after one tick
and a child incrementing after each of two ticks, the counters observed
after the first four advances are exactly 0, 2, 3, 3, and the join
resolves only once both children completed: after two advances the root
is still live, after three it is gone. -/
theorem par_and_trace :
    counterAfter 60 1 parAndExec = some 0 ∧
    counterAfter 60 2 parAndExec = some 2 ∧
    counterAfter 60 3 parAndExec = some 3 ∧
    counterAfter 60 4 parAndExec = some 3 ∧
    rootsAfter 60 2 parAndExec = some 1 ∧
    rootsAfter 60 3 parAndExec = some 0 :=
  ⟨rfl, rfl, rfl, rfl, rfl, rfl⟩

/-- Claim C7.  With two writers mutating the same entry once per tick
and one waiter looping on `change`, and likewise with two writers of
two distinct entries and a waiter alternating two `change` calls, the
waiter has observed exactly twice the number of mutation ticks after
every advance: no event is double counted and none is dropped. -/
theorem joint_visibility_trace :
    (counterAfter 60 1 multiWriteExec = some 0 ∧
     counterAfter 60 2 multiWriteExec = some 2 ∧
     counterAfter 60 3 multiWriteExec = some 4 ∧
     counterAfter 60 4 multiWriteExec = some 6 ∧
     counterAfter 60 5 multiWriteExec = some 8) ∧
    (counterAfter 60 1 twoEntryExec = some 0 ∧
     counterAfter 60 2 twoEntryExec = some 2 ∧
     counterAfter 60 3 twoEntryExec = some 4 ∧
     counterAfter 60 4 twoEntryExec = some 6 ∧
     counterAfter 60 5 twoEntryExec = some 8) :=
  ⟨⟨rfl, rfl, rfl, rfl, rfl⟩, ⟨rfl, rfl, rfl, rfl, rfl⟩⟩

/-- Claim C4, counterexample.  In the two-writer scenario, during the
second pass root 0 and root 1 each receive an exclusive borrow window
of entry 0 within one and the same resumption pass, the pass completes
without any scheduler-fatal error, and both increments are applied: the
claim that two coroutines never both receive exclusive borrows of the
same entry within one pass (and that the second such grab fails) is
false on this program. -/
theorem exclusive_grabs_same_pass_counterexample :
    logOfPass 60 1 multiWriteExec = some [(0, 0), (1, 0)] ∧
    counterAfter 60 2 multiWriteExec = some 2 ∧
    worldAfter 60 2 multiWriteExec = some [⟨2, 2⟩] :=
  ⟨rfl, rfl, rfl⟩

/-- Claim C3.  A coroutine awaiting a suspension source not produced by
the library is a fatal usage error on the very next advance call that
attempts to resume it, whether the coroutine is fresh (first pass) or
suspended on a tick token with the foreign await behind it: the pass
reports a fault instead of hanging or silently skipping the
coroutine. -/
theorem external_await_faults (f : Nat) (s : Shared) (sn : Seen) (k : Coro) :
    tick (f + 1) ⟨[⟨true, .external k, sn⟩], s⟩ = .error .fault
    ∧ tick (f + 1) ⟨[⟨false, .nextTick (.external k), sn⟩], s⟩ = .error .fault := by
  constructor
  · simp [tick, tickL, tickRoots, driveRoot, runSegF, runSegStep, withLog]
  · simp [tick, tickL, tickRoots, driveRoot, resume, runSegF, runSegStep, withLog]

/-- Claim C4, amended.  Requesting a grab of a non-existent entry is
scheduler-fatal on the pass that opens the window; exclusive borrow
windows are bounded to a single run segment, so two coroutines grabbing
the same entry within one pass hold their windows sequentially, never
simultaneously, and such sequential grabs succeed with both mutations
applied (second and third conjuncts, on the two-writer scenario). -/
theorem grab_missing_entry_fatal :
    (∀ (fuel : Nat) (s : Shared) (sn : Seen) (w : Bool) (k : Coro) (id : Nat),
      s.world.length ≤ id →
      tick fuel ⟨[⟨false, .thenGrab id w k, sn⟩], s⟩ = .error .fault)
    ∧ logOfPass 60 1 multiWriteExec = some [(0, 0), (1, 0)]
    ∧ worldAfter 60 2 multiWriteExec = some [⟨2, 2⟩] := by
  refine ⟨fun fuel s sn w k id h => ?_, rfl, rfl⟩
  have hg : getEntry s.world id = none := by
    simp [getEntry, List.get?_eq_none]
    exact h
  simp [tick, tickL, tickRoots, driveRoot, resume, grabStep, hg]

/-- One root suspended on a change wait of entry 0, with every baseline
at `b` (the change-version captured when the wait began). -/
def waiterRoot (b : Nat) : Root := ⟨false, .waitChange 0 (.inc .done), fun _ => b⟩

/-- Two independent coroutines waiting on a change of the same entry,
whose current version is `v`, both baselines captured at `b`. -/
def twoWaiters (b v val c0 : Nat) : Exec :=
  ⟨[waiterRoot b, waiterRoot b], ⟨[⟨val, v⟩], c0⟩⟩

/-- Claim C2.  A change wait whose baseline was captured at pass P
resolves on the first subsequent pass in which the entry version
differs from the captured value, and on no earlier pass: while the
version still equals the baseline, any number of passes leave the
executor unchanged; and on the first pass with a differing version both
independent waiters on the same entry resolve in one and the same pass,
each observing the change exactly once (the counter grows by exactly
two) — one waiter resolving does not consume the event for the
other. -/
theorem change_wait_first_difference (f b val c0 k : Nat) :
    tickN (f + 1) k (twoWaiters b b val c0) = .ok (twoWaiters b b val c0)
    ∧ ∀ v, v ≠ b →
        tick (f + 1) (twoWaiters b v val c0) = .ok ⟨[], ⟨[⟨val, v⟩], c0 + 1 + 1⟩⟩ := by
  constructor
  · have h1 : tick (f + 1) (twoWaiters b b val c0) = .ok (twoWaiters b b val c0) := by
      simp [tick, tickL, tickRoots, driveRoot, resume, twoWaiters, waiterRoot,
        changeReady, getEntry]
    induction k with
    | zero => rfl
    | succ k ih => simp only [tickN]; rw [h1]; exact ih
  · intro v hv
    have hb : (v != b) = true := by simpa using hv
    simp [tick, tickL, tickRoots, driveRoot, resume, twoWaiters, waiterRoot,
      changeReady, getEntry, hb, withLog, runSegF, runSegStep]

/-- Claim C2, witness: with baseline 0 the two waiters are untouched by
any number of passes while the version stays 0, and the pass after the
version becomes 1 resolves both, incrementing the counter twice. -/
theorem change_wait_first_difference_witness :
    tickN 1 3 (twoWaiters 0 0 0 0) = .ok (twoWaiters 0 0 0 0)
    ∧ tick 1 (twoWaiters 0 1 0 0) = .ok ⟨[], ⟨[⟨0, 1⟩], 2⟩⟩ :=
  ⟨(change_wait_first_difference 0 0 0 0 3).1,
   (change_wait_first_difference 0 0 0 0 3).2 1 (by decide)⟩

/-- Claim C8.  A coroutine that holds an exclusive borrow window of an
entry but never takes its mutation branch leaves the entry value and
change-version untouched and does not cause a co-scheduled change
waiter to resolve: one pass over a never-writing grabber followed by a
looping waiter returns the very same world, counter and waiter state
(first conjunct, for every version `v`, value and counter); and in the
full test scenarios the waiter counts only the genuine writer of the
entry, both without and with an additional external mutation each
tick. -/
theorem unwritten_borrow_no_effect :
    (∀ (f v val c0 : Nat) (g : Seen),
      tick (f + 1)
          ⟨[⟨false, .thenGrab 0 false (.thenGrab 0 false .done), g⟩,
            ⟨false, waiterLoop 0, fun _ => v⟩], ⟨[⟨val, v⟩], c0⟩⟩
        = .ok ⟨[⟨false, .thenGrab 0 false .done, g⟩,
                ⟨false, waiterLoop 0, fun _ => v⟩], ⟨[⟨val, v⟩], c0⟩⟩)
    ∧ (counterAfter 60 1 nonWriteExec = some 0 ∧
       counterAfter 60 2 nonWriteExec = some 1 ∧
       counterAfter 60 3 nonWriteExec = some 2 ∧
       counterAfter 60 4 nonWriteExec = some 3 ∧
       counterAfter 60 5 nonWriteExec = some 4 ∧
       worldAfter 60 5 nonWriteExec = some [⟨4, 4⟩])
    ∧ (counterHostAfter 60 0 1 nonWriteExec = some 0 ∧
       counterHostAfter 60 0 2 nonWriteExec = some 2 ∧
       counterHostAfter 60 0 3 nonWriteExec = some 4 ∧
       counterHostAfter 60 0 4 nonWriteExec = some 6 ∧
       counterHostAfter 60 0 5 nonWriteExec = some 8) := by
  refine ⟨fun f v val c0 g => ?_, ⟨rfl, rfl, rfl, rfl, rfl, rfl⟩,
    ⟨rfl, rfl, rfl, rfl, rfl⟩⟩
  simp [tick, tickL, tickRoots, driveRoot, resume, waiterLoop, changeReady,
    getEntry, grabStep, withGrab, runSegF, runSegStep]

/-- Coroutines built from the `next_tick` primitive, counter increments
and termination only (the shape quantified over by the completion
claim). -/
inductive OnlyTick : Coro → Prop where
  | done : OnlyTick .done
  | inc {k : Coro} : OnlyTick k → OnlyTick (.inc k)
  | tick {k : Coro} : OnlyTick k → OnlyTick (.nextTick k)

/-- Number of `next_tick` calls such a coroutine performs. -/
def nTicks : Coro → Nat
  | .inc k => nTicks k
  | .nextTick k => nTicks k + 1
  | _ => 0

lemma runSegStep_onlyTick (restart : Shared → Seen → Coro → Option SegRes) :
    ∀ (c : Coro), OnlyTick c → ∀ (s : Shared) (sn : Seen),
    (nTicks c = 0
      ∧ ∃ n, runSegStep restart s sn c = some (⟨s.world, s.counter + n⟩, sn, .finished))
    ∨ (∃ n k', runSegStep restart s sn c
          = some (⟨s.world, s.counter + n⟩, sn, .suspended (.nextTick k'))
        ∧ OnlyTick k' ∧ nTicks c = nTicks k' + 1) := by
  intro c h
  induction h with
  | done =>
      intro s sn
      left
      exact ⟨rfl, 0, by simp [runSegStep]⟩
  | @inc k hk ih =>
      intro s sn
      rcases ih { s with counter := s.counter + 1 } sn with ⟨h0, n, hr⟩ | ⟨n, k', hr, hk', hn⟩
      · left
        refine ⟨by simpa [nTicks] using h0, n + 1, ?_⟩
        have he : s.counter + 1 + n = s.counter + (n + 1) := by omega
        simp only [runSegStep]
        rw [hr]
        simp [he]
      · right
        refine ⟨n + 1, k', ?_, hk', by simpa [nTicks] using hn⟩
        have he : s.counter + 1 + n = s.counter + (n + 1) := by omega
        simp only [runSegStep]
        rw [hr]
        simp [he]
  | @tick k hk ih =>
      intro s sn
      right
      exact ⟨0, k, by simp [runSegStep], hk, by simp [nTicks]⟩

lemma tickN_single_stuck (fuel : Nat) (r : Root) (s : Shared) (s' : Shared) :
    tickN fuel 0 ⟨[r], s⟩ ≠ .ok ⟨[], s'⟩ := by
  intro h
  simp [tickN] at h

lemma completion_pass_susp :
    ∀ (N : Nat) (c' : Coro), OnlyTick c' → nTicks c' = N →
    ∀ (f : Nat) (s : Shared) (sn : Seen) (k : Nat),
    ((∃ s', tickN (f + 1) k ⟨[⟨false, .nextTick c', sn⟩], s⟩ = .ok ⟨[], s'⟩) ↔ N + 1 ≤ k) := by
  intro N
  induction N with
  | zero =>
      intro c' hc hn f s sn k
      cases k with
      | zero =>
          constructor
          · rintro ⟨s', hs⟩
            exact absurd hs (tickN_single_stuck _ _ _ _)
          · intro h; omega
      | succ k =>
          rcases runSegStep_onlyTick (runSegF f) c' hc s sn with ⟨h0, n, hr⟩ | ⟨n, k', hr, hk', hn'⟩
          · have hdr : driveRoot (f + 1) s ⟨false, .nextTick c', sn⟩
                = some (⟨s.world, s.counter + n⟩, sn, [], .finished) := by
              simp [driveRoot, resume, runSegF, withLog, hr]
            have hstep : tickN (f + 1) (k + 1) ⟨[⟨false, .nextTick c', sn⟩], s⟩
                = tickN (f + 1) k ⟨[], ⟨s.world, s.counter + n⟩⟩ := by
              simp only [tickN]
              rw [tick_single, hdr]
            rw [hstep, tickN_nil]
            constructor
            · intro _; omega
            · intro _; exact ⟨_, rfl⟩
          · omega
  | succ M ih =>
      intro c' hc hn f s sn k
      cases k with
      | zero =>
          constructor
          · rintro ⟨s', hs⟩
            exact absurd hs (tickN_single_stuck _ _ _ _)
          · intro h; omega
      | succ k =>
          rcases runSegStep_onlyTick (runSegF f) c' hc s sn with ⟨h0, n, hr⟩ | ⟨n, k', hr, hk', hn'⟩
          · omega
          · have hdr : driveRoot (f + 1) s ⟨false, .nextTick c', sn⟩
                = some (⟨s.world, s.counter + n⟩, sn, [], .suspended (.nextTick k')) := by
              simp [driveRoot, resume, runSegF, withLog, hr]
            have hstep : tickN (f + 1) (k + 1) ⟨[⟨false, .nextTick c', sn⟩], s⟩
                = tickN (f + 1) k ⟨[⟨false, .nextTick k', sn⟩], ⟨s.world, s.counter + n⟩⟩ := by
              simp only [tickN]
              rw [tick_single, hdr]
            have hM : nTicks k' = M := by omega
            rw [hstep, ih k' hk' hM f ⟨s.world, s.counter + n⟩ sn k]
            omega

/-- Claim C1.  For every coroutine built only from the `next_tick`
primitive (with any interleaved counter increments) that calls it N
times, registered as the sole root and lazily constructed during the
first advance call, the coroutine is gone from the executor after
advance number k exactly when k exceeds N: it completes on the Nth
advance after the pass of its creation (absolute pass N + 1) and on no
earlier pass; in particular no `next_tick` token resolves in the pass
that created it. -/
theorem next_tick_only_completion :
    ∀ (c : Coro), OnlyTick c → ∀ (f : Nat) (s : Shared) (k : Nat),
    ((∃ s', tickN (f + 1) k ⟨[⟨true, c, fun _ => 0⟩], s⟩ = .ok ⟨[], s'⟩)
      ↔ nTicks c + 1 ≤ k) := by
  intro c hc f s k
  cases k with
  | zero =>
      constructor
      · rintro ⟨s', hs⟩
        exact absurd hs (tickN_single_stuck _ _ _ _)
      · intro h; omega
  | succ k =>
      rcases runSegStep_onlyTick (runSegF f) c hc s (versionsOf s)
        with ⟨h0, n, hr⟩ | ⟨n, k', hr, hk', hn'⟩
      · have hdr : driveRoot (f + 1) s ⟨true, c, fun _ => 0⟩
            = some (⟨s.world, s.counter + n⟩, versionsOf s, [], .finished) := by
          simp [driveRoot, withLog, runSegF, hr]
        have hstep : tickN (f + 1) (k + 1) ⟨[⟨true, c, fun _ => 0⟩], s⟩
            = tickN (f + 1) k ⟨[], ⟨s.world, s.counter + n⟩⟩ := by
          simp only [tickN]
          rw [tick_single, hdr]
        rw [hstep, tickN_nil]
        constructor
        · intro _; omega
        · intro _; exact ⟨_, rfl⟩
      · have hdr : driveRoot (f + 1) s ⟨true, c, fun _ => 0⟩
            = some (⟨s.world, s.counter + n⟩, versionsOf s, [], .suspended (.nextTick k')) := by
          simp [driveRoot, withLog, runSegF, hr]
        have hstep : tickN (f + 1) (k + 1) ⟨[⟨true, c, fun _ => 0⟩], s⟩
            = tickN (f + 1) k ⟨[⟨false, .nextTick k', versionsOf s⟩], ⟨s.world, s.counter + n⟩⟩ := by
          simp only [tickN]
          rw [tick_single, hdr]
        rw [hstep,
          completion_pass_susp (nTicks k') k' hk' rfl f ⟨s.world, s.counter + n⟩ (versionsOf s) k]
        omega

/-- Claim C1, witness: the `wait_on_tick` coroutine calls `next_tick`
twice and is gone from the executor exactly from the third advance
on. -/
theorem next_tick_only_completion_witness :
    (∃ s', tickN 1 3 ⟨[⟨true, waitOnTickProg, fun _ => 0⟩], shE⟩ = .ok ⟨[], s'⟩)
      ↔ nTicks waitOnTickProg + 1 ≤ 3 :=
  next_tick_only_completion waitOnTickProg
    (by unfold waitOnTickProg; exact .inc (.tick (.inc (.tick (.inc .done))))) 0 shE 3

lemma resume_onSub_step (f : Nat) (s : Shared) (sn : Seen) (j : Nat) :
    resume (f + 1) s sn (.onSub (.nextTick (tickProg (j + 1))) (.inc .done))
      = some (s, sn, [], .suspended (.onSub (.nextTick (tickProg j)) (.inc .done))) := by
  simp [resume, tickProg, runSegF, runSegStep, withLog]

lemma resume_onSub_last (f : Nat) (s : Shared) (sn : Seen) :
    resume (f + 1) s sn (.onSub (.nextTick (tickProg 0)) (.inc .done))
      = some (⟨s.world, s.counter + 1⟩, sn, [], .finished) := by
  simp [resume, tickProg, runSegF, runSegStep, withLog]

lemma tick_onSub_step (f : Nat) (s : Shared) (sn : Seen) (j : Nat) :
    tick (f + 1) ⟨[⟨false, .onSub (.nextTick (tickProg (j + 1))) (.inc .done), sn⟩], s⟩
      = .ok ⟨[⟨false, .onSub (.nextTick (tickProg j)) (.inc .done), sn⟩], s⟩ := by
  rw [tick_single]
  simp [driveRoot, resume_onSub_step]

lemma tick_onSub_last (f : Nat) (s : Shared) (sn : Seen) :
    tick (f + 1) ⟨[⟨false, .onSub (.nextTick (tickProg 0)) (.inc .done), sn⟩], s⟩
      = .ok ⟨[], ⟨s.world, s.counter + 1⟩⟩ := by
  rw [tick_single]
  simp [driveRoot, resume_onSub_last]

lemma tick_subParent_first (f : Nat) (s : Shared) (N : Nat) :
    tick (f + 1) ⟨[⟨true, subParentProg (N + 1), fun _ => 0⟩], s⟩
      = .ok ⟨[⟨false, .onSub (.nextTick (tickProg N)) (.inc .done), versionsOf s⟩],
             ⟨s.world, s.counter + 1⟩⟩ := by
  rw [tick_single]
  simp [driveRoot, subParentProg, tickProg, runSegF, runSegStep, withLog]

lemma tick_subParent_zero (f : Nat) (s : Shared) :
    tick (f + 1) ⟨[⟨true, subParentProg 0, fun _ => 0⟩], s⟩
      = .ok ⟨[], ⟨s.world, s.counter + 1 + 1⟩⟩ := by
  rw [tick_single]
  simp [driveRoot, subParentProg, tickProg, runSegF, runSegStep, withLog]

lemma tickN_onSub_mid (f : Nat) :
    ∀ (m j : Nat), m ≤ j → ∀ (s : Shared) (sn : Seen),
    tickN (f + 1) m ⟨[⟨false, .onSub (.nextTick (tickProg j)) (.inc .done), sn⟩], s⟩
      = .ok ⟨[⟨false, .onSub (.nextTick (tickProg (j - m))) (.inc .done), sn⟩], s⟩ := by
  intro m
  induction m with
  | zero => intro j h s sn; simp [tickN]
  | succ m ih =>
      intro j h s sn
      obtain ⟨j', rfl⟩ : ∃ j', j = j' + 1 := ⟨j - 1, by omega⟩
      simp only [tickN]
      rw [tick_onSub_step]
      have hj : j' + 1 - (m + 1) = j' - m := by omega
      rw [hj]
      exact ih j' (by omega) s sn

/-- Claim C9.  A call of `on(child)` spawns a child owned by the
caller, which starts running in the same pass; the caller suspends on a
token that resolves exactly when the child completes.  For a child that
waits N ticks: during passes 1 through N the parent stays suspended
with only its pre-call effect visible (counter + 1, the parent is not
resumed), and on pass N + 1 — the pass in which the child finishes —
the parent resumes with the result of the child and completes
(counter + 1 + 1, root removed), and stays gone afterwards. -/
theorem sub_coroutine_completion (N f : Nat) (s : Shared) :
    (∀ k, 1 ≤ k → k ≤ N →
      tickN (f + 1) k ⟨[⟨true, subParentProg N, fun _ => 0⟩], s⟩
        = .ok ⟨[⟨false, .onSub (.nextTick (tickProg (N - k))) (.inc .done), versionsOf s⟩],
               ⟨s.world, s.counter + 1⟩⟩)
    ∧ (∀ k, N + 1 ≤ k →
      tickN (f + 1) k ⟨[⟨true, subParentProg N, fun _ => 0⟩], s⟩
        = .ok ⟨[], ⟨s.world, s.counter + 1 + 1⟩⟩) := by
  constructor
  · intro k h1 h2
    obtain ⟨k', rfl⟩ : ∃ k', k = k' + 1 := ⟨k - 1, by omega⟩
    obtain ⟨M, rfl⟩ : ∃ M, N = M + 1 := ⟨N - 1, by omega⟩
    simp only [tickN]
    rw [tick_subParent_first]
    have hj : M + 1 - (k' + 1) = M - k' := by omega
    rw [hj]
    exact tickN_onSub_mid f k' M (by omega) ⟨s.world, s.counter + 1⟩ (versionsOf s)
  · intro k hk
    cases N with
    | zero =>
        obtain ⟨m, rfl⟩ : ∃ m, k = 1 + m := ⟨k - 1, by omega⟩
        rw [tickN_add]
        have h1 : tickN (f + 1) 1 ⟨[⟨true, subParentProg 0, fun _ => 0⟩], s⟩
            = .ok ⟨[], ⟨s.world, s.counter + 1 + 1⟩⟩ := by
          simp only [tickN]
          rw [tick_subParent_zero]
        rw [h1]
        exact tickN_nil _ m _
    | succ M =>
        obtain ⟨m, rfl⟩ : ∃ m, k = (M + 1 + 1) + m := ⟨k - (M + 2), by omega⟩
        have hmid : tickN (f + 1) (M + 1 + 1) ⟨[⟨true, subParentProg (M + 1), fun _ => 0⟩], s⟩
            = .ok ⟨[], ⟨s.world, s.counter + 1 + 1⟩⟩ := by
          have h1 : tickN (f + 1) 1 ⟨[⟨true, subParentProg (M + 1), fun _ => 0⟩], s⟩
              = .ok ⟨[⟨false, .onSub (.nextTick (tickProg M)) (.inc .done), versionsOf s⟩],
                     ⟨s.world, s.counter + 1⟩⟩ := by
            simp only [tickN]
            rw [tick_subParent_first]
          have hsplit : M + 1 + 1 = 1 + (M + 1) := by omega
          rw [hsplit, tickN_comp (f + 1) 1 (M + 1) _ _ h1]
          have h2 := tickN_onSub_mid f M M (Nat.le_refl M) ⟨s.world, s.counter + 1⟩ (versionsOf s)
          rw [Nat.sub_self] at h2
          rw [tickN_comp (f + 1) M 1 _ _ h2]
          simp only [tickN]
          rw [tick_onSub_last]
        rw [tickN_comp (f + 1) (M + 1 + 1) m _ _ hmid]
        exact tickN_nil _ m _

/-- Claim C9, witness: with a child waiting two ticks, after two
advances the parent is still suspended on the child with counter 1, and
from the third advance on it has completed with counter 2 and left the
executor. -/
theorem sub_coroutine_completion_witness :
    tickN 1 2 ⟨[⟨true, subParentProg 2, fun _ => 0⟩], shE⟩
      = .ok ⟨[⟨false, .onSub (.nextTick (tickProg 0)) (.inc .done), versionsOf shE⟩],
             ⟨[], 1⟩⟩
    ∧ tickN 1 3 ⟨[⟨true, subParentProg 2, fun _ => 0⟩], shE⟩ = .ok ⟨[], ⟨[], 2⟩⟩ :=
  ⟨(sub_coroutine_completion 2 0 shE).1 2 (by decide) (by decide),
   (sub_coroutine_completion 2 0 shE).2 3 (by decide)⟩

/-- Claim C4 amended, witness: grabbing entry 0 of an empty world is
scheduler-fatal on the pass that would open the borrow window. -/
theorem grab_missing_entry_fatal_witness :
    tick 5 ⟨[⟨false, .thenGrab 0 true .done, fun _ => 0⟩], shE⟩ = .error .fault :=
  grab_missing_entry_fatal.1 5 shE (fun _ => 0) true .done 0 (by decide)
